import Mathlib

/-!
Shallow embedding of the notions-words repository (a browser extension that
translates selected words and syncs them to Notion), covering:

* entity models (`src/entities/word/model.ts`, the translation entity,
  `src/entities/notion-record/model.ts`);
* the translation provider registry
  (`src/shared/api/translation/index.ts`, `TranslationServiceManager`);
* the translation service with its LFU cache
  (`TranslationService` in the feature layer);
* the Notion sync queue (`src/features/notion-sync/model.ts`,
  `NotionSyncService`).

JavaScript `Map`s are modelled as association lists in insertion order with
the exact `get`/`set`/`delete` semantics; `Date.now()` timestamps are passed
in as explicit `Nat` parameters; promise rejection / `throw` is modelled with
`Except String`.
-/

namespace NotionsWords

/-! ### Entities (`src/entities/word/model.ts`, translation entity) -/

/-- `TranslationProvider` enum: GOOGLE = 'google', DEEPL = 'deepl',
YOUDAO = 'youdao'. -/
inductive TranslationProvider
  | google
  | deepl
  | youdao
deriving DecidableEq, Repr

/-- The `source` field of a `Word`: `{ url, title, domain }`. -/
structure WordSource where
  url : String
  title : String
  domain : String
deriving DecidableEq, Repr

/-- The `Word` entity. -/
structure Word where
  text : String
  language : String
  position : Option (Nat × Nat)
  context : Option String
  source : WordSource
  timestamp : Nat
deriving DecidableEq, Repr

/-- One element of `Translation.result.definitions`. -/
structure TranslationDefinition where
  partOfSpeech : String
  meanings : List String
deriving DecidableEq, Repr

/-- The `result` field of a `Translation`. -/
structure TranslationResult where
  text : String
  targetLanguage : String
  phonetic : Option String
  definitions : Option (List TranslationDefinition)
  examples : Option (List String)
deriving DecidableEq, Repr

/-- The `Translation` entity. `confidence` is an optional JS number; no claim
depends on its value, it is carried as an optional rational. -/
structure Translation where
  originalWord : Word
  result : TranslationResult
  provider : TranslationProvider
  confidence : Option ℚ
  timestamp : Nat
  id : String
deriving DecidableEq, Repr

/-! ### JavaScript `Map` as an association list (insertion order) -/

/-- `Map.prototype.get`: the value stored under `k`, if any. -/
def mapGet {α β : Type} [DecidableEq α] (k : α) : List (α × β) → Option β
  | [] => none
  | (k', v) :: rest => if k' = k then some v else mapGet k rest

/-- `Map.prototype.set`: overwrite in place (keeping the entry's position in
iteration order) if the key is present, else append at the end. -/
def mapSet {α β : Type} [DecidableEq α] (k : α) (v : β) :
    List (α × β) → List (α × β)
  | [] => [(k, v)]
  | (k', v') :: rest =>
    if k' = k then (k', v) :: rest else (k', v') :: mapSet k v rest

/-- `Map.prototype.delete`: remove the entry stored under `k` (a JS `Map`
holds at most one entry per key; this removes the first match). -/
def mapDelete {α β : Type} [DecidableEq α] (k : α) :
    List (α × β) → List (α × β)
  | [] => []
  | (k', v) :: rest =>
    if k' = k then rest else (k', v) :: mapDelete k rest

/-! ### JavaScript string / truthiness helpers -/

/-- JS `String.prototype.toLowerCase()`, characterwise lowercasing (the
repository only feeds it ASCII text and BCP-47 language tags). -/
def jsToLowerCase (s : String) : String :=
  ⟨s.data.map Char.toLower⟩

/-- JS truthiness of an optional string: `undefined` and `""` are falsy. -/
def jsTruthy : Option String → Bool
  | some s => !s.isEmpty
  | none => false

/-- JS `a || b` where `a` is an optional string. -/
def jsOr (a : Option String) (b : String) : String :=
  match a with
  | some s => if s.isEmpty then b else s
  | none => b

/-! ### The translation cache (`TranslationService` private members) -/

/-- A cache entry: `{ translation, timestamp, accessCount }`. -/
structure TranslationCacheItem where
  translation : Translation
  timestamp : Nat
  accessCount : Nat
deriving DecidableEq, Repr

/-- `private cache = new Map<string, TranslationCacheItem>()`. -/
abbrev TranslationCache := List (String × TranslationCacheItem)

/-- `private maxCacheSize = 1000`. -/
def maxCacheSize : Nat := 1000

/-- `private cacheExpiryTime = 24 * 60 * 60 * 1000` (24 hours in ms). -/
def cacheExpiryTime : Nat := 24 * 60 * 60 * 1000

/-- `getCacheKey`: `` `${text}|${sourceLanguage}|${targetLanguage}`.toLowerCase() ``.
Note the template string is built first and the WHOLE composite is lowercased. -/
def getCacheKey (text sourceLanguage targetLanguage : String) : String :=
  jsToLowerCase (text ++ "|" ++ sourceLanguage ++ "|" ++ targetLanguage)

/-- `getFromCache(key)`: miss on absent key; if the entry's age exceeds
`cacheExpiryTime` delete it and miss; otherwise bump `accessCount` (an
in-place mutation of the stored item) and hit. `now` stands for the
`Date.now()` read, subtraction is JS number subtraction (here on `Int`). -/
def getFromCache (now : Nat) (key : String) (cache : TranslationCache) :
    Option Translation × TranslationCache :=
  match mapGet key cache with
  | none => (none, cache)
  | some item =>
    if (now : Int) - (item.timestamp : Int) > (cacheExpiryTime : Int) then
      (none, mapDelete key cache)
    else
      (some item.translation,
        mapSet key { item with accessCount := item.accessCount + 1 } cache)

/-- The comparator passed to `entries.sort` in `evictLeastUsedItems`:
ascending `accessCount`, ties broken by ascending `timestamp`. -/
def evictOrder (a b : String × TranslationCacheItem) : Prop :=
  a.2.accessCount < b.2.accessCount ∨
    (a.2.accessCount = b.2.accessCount ∧ a.2.timestamp ≤ b.2.timestamp)

instance : DecidableRel evictOrder := fun a b =>
  inferInstanceAs (Decidable (a.2.accessCount < b.2.accessCount ∨
    (a.2.accessCount = b.2.accessCount ∧ a.2.timestamp ≤ b.2.timestamp)))

instance : IsTotal (String × TranslationCacheItem) evictOrder :=
  ⟨fun a b => by unfold evictOrder; omega⟩

instance : IsTrans (String × TranslationCacheItem) evictOrder :=
  ⟨fun a b c hab hbc => by unfold evictOrder at *; omega⟩

/-- `Array.from(this.cache.entries())` sorted with the eviction comparator.
JS `Array.prototype.sort` is a stable comparison sort; insertion sort is one. -/
def sortedEntries (cache : TranslationCache) : TranslationCache :=
  List.insertionSort evictOrder cache

/-- `Math.ceil(n * 0.1)`: for the natural numbers `n` that can occur as a
cache size this equals `⌈n / 10⌉`, i.e. `(n + 9) / 10` in `Nat` division. -/
def evictBatchSize (n : Nat) : Nat :=
  (n + 9) / 10

/-- The keys deleted by the eviction loop: the keys of the first
`toDelete` entries of the sorted entry array. -/
def evictedKeys (cache : TranslationCache) : List String :=
  ((sortedEntries cache).take (evictBatchSize (sortedEntries cache).length)).map
    Prod.fst

/-- `evictLeastUsedItems()`: sort the entries by `(accessCount, timestamp)`
ascending and delete the first `Math.ceil(length * 0.1)` keys. -/
def evictLeastUsedItems (cache : TranslationCache) : TranslationCache :=
  (evictedKeys cache).foldl (fun c k => mapDelete k c) cache

/-- `addToCache(key, translation)`: evict first if `size >= maxCacheSize`,
then store the entry with a fresh timestamp and `accessCount = 1`. -/
def addToCache (now : Nat) (key : String) (translation : Translation)
    (cache : TranslationCache) : TranslationCache :=
  let cache' :=
    if cache.length ≥ maxCacheSize then evictLeastUsedItems cache else cache
  mapSet key
    { translation := translation, timestamp := now, accessCount := 1 } cache'

/-- A sequence of `put` calls (`addToCache`), each with its own `Date.now()`
reading, key and value, applied left to right. -/
def applyPuts (puts : List (Nat × String × Translation))
    (cache : TranslationCache) : TranslationCache :=
  puts.foldl (fun c p => addToCache p.1 p.2.1 p.2.2 c) cache

/-! ### Provider registry (`TranslationServiceManager`,
`src/shared/api/translation/index.ts`) -/

/-- The behaviour of one registered `ITranslationAPI`: each call either
resolves (`Except.ok`) or rejects (`Except.error` with its message). -/
structure ProviderAPI where
  translateText : Word → String → Except String Translation
  detectLanguage : String → Except String String

/-- `private apis: Map<TranslationProvider, ITranslationAPI>`, an insertion
ordered map, i.e. registration order. -/
abbrev ProviderMap := List (TranslationProvider × ProviderAPI)

/-- The `for (const [provider, api] of this.apis)` fallback loop of
`translateText`, also recording the providers attempted in order: each
provider is tried in registration order, the first success returns, and if
the loop completes the aggregated error is thrown. -/
def tryProvidersTrace (word : Word) (targetLanguage : String) :
    ProviderMap → Except String Translation × List TranslationProvider
  | [] => (Except.error "所有翻译API都不可用", [])
  | (p, api) :: rest =>
    match api.translateText word targetLanguage with
    | Except.ok t => (Except.ok t, [p])
    | Except.error _ =>
      let r := tryProvidersTrace word targetLanguage rest
      (r.1, p :: r.2)

/-- `TranslationServiceManager.translateText` with an attempt trace: if a
preferred provider is given and registered it is tried first (its rejection
is caught and logged), then the fallback loop runs over the whole map. -/
def translateTextTrace (apis : ProviderMap) (word : Word)
    (targetLanguage : String) (preferredProvider : Option TranslationProvider) :
    Except String Translation × List TranslationProvider :=
  match preferredProvider with
  | some p =>
    match mapGet p apis with
    | some api =>
      match api.translateText word targetLanguage with
      | Except.ok t => (Except.ok t, [p])
      | Except.error _ =>
        let r := tryProvidersTrace word targetLanguage apis
        (r.1, p :: r.2)
    | none => tryProvidersTrace word targetLanguage apis
  | none => tryProvidersTrace word targetLanguage apis

/-- `TranslationServiceManager.detectLanguage`: first registered provider
whose `detectLanguage` resolves wins; every rejection is caught; if none
succeeds the sentinel `'auto'` is returned (never an error). -/
def detectLanguage (apis : ProviderMap) (text : String) : String :=
  match apis with
  | [] => "auto"
  | (_, api) :: rest =>
    match api.detectLanguage text with
    | Except.ok lang => lang
    | Except.error _ => detectLanguage rest text

/-- Whether a provider's `translateText` rejects on this request (used to
state the first-success characterisation of the fallback loop). -/
def attemptFails (word : Word) (targetLanguage : String)
    (pa : TranslationProvider × ProviderAPI) : Bool :=
  match pa.2.translateText word targetLanguage with
  | Except.ok _ => false
  | Except.error _ => true

/-! ### `TranslationService` (`translateWord` / `translateBatch`) -/

/-- Events fired to `TranslationService` listeners. -/
inductive TranslationEvent
  | started (word : Word)
  | completed (word : Word) (translation : Translation)
  | failed (word : Word) (error : String)
deriving DecidableEq, Repr

/-- The slice of `UserConfig` that `translateWord` reads. -/
structure UserConfig where
  defaultTargetLanguage : String
deriving DecidableEq, Repr

/-- The outcome of one `translateWord` call: its returned/thrown result, the
cache left behind, and the events fired in order. -/
structure TranslateWordResult where
  result : Except String Translation
  cache : TranslationCache
  events : List TranslationEvent
deriving Repr

/-- `TranslationService.translateWord`. `now` stands for the `Date.now()`
readings made during the call. On a cache hit the cached translation is
returned with a `translation_completed` event; on a miss a
`translation_started` event fires, the language is detected when it is the
`'auto'` sentinel, the registry translates, the result is cached and
`translation_completed` fires; a registry failure fires
`translation_failed` and re-throws. -/
def translateWord (apis : ProviderMap) (config : Option UserConfig)
    (cache : TranslationCache) (now : Nat) (word : Word)
    (targetLanguage : Option String)
    (preferredProvider : Option TranslationProvider) : TranslateWordResult :=
  let target := jsOr targetLanguage
    (jsOr (config.map UserConfig.defaultTargetLanguage) "zh-CN")
  let cacheKey := getCacheKey word.text word.language target
  match getFromCache now cacheKey cache with
  | (some cached, cache') =>
    { result := Except.ok cached
      cache := cache'
      events := [TranslationEvent.completed word cached] }
  | (none, cache') =>
    let sourceLanguage :=
      if word.language = "auto" then detectLanguage apis word.text
      else word.language
    let updatedWord := { word with language := sourceLanguage }
    match translateTextTrace apis updatedWord target preferredProvider with
    | (Except.ok translation, _) =>
      { result := Except.ok translation
        cache := addToCache now cacheKey translation cache'
        events := [TranslationEvent.started word,
          TranslationEvent.completed updatedWord translation] }
    | (Except.error e, _) =>
      { result := Except.error e
        cache := cache'
        events := [TranslationEvent.started word,
          TranslationEvent.failed word e] }

/-- The `for (const word of words)` loop of `translateBatch`, threading the
cache serially, pushing each successful translation and swallowing each
failure (`console.error`, continue). `times i` is the `Date.now()` reading
for the `i`-th word's call. -/
def translateBatchAux (apis : ProviderMap) (config : Option UserConfig)
    (targetLanguage : Option String) (times : Nat → Nat) :
    Nat → TranslationCache → List Word →
    List Translation × TranslationCache × List TranslationEvent
  | _, cache, [] => ([], cache, [])
  | i, cache, w :: ws =>
    let r := translateWord apis config cache (times i) w targetLanguage none
    let rest := translateBatchAux apis config targetLanguage times (i + 1)
      r.cache ws
    match r.result with
    | Except.ok t => (t :: rest.1, rest.2.1, r.events ++ rest.2.2)
    | Except.error _ => (rest.1, rest.2.1, r.events ++ rest.2.2)

/-- `TranslationService.translateBatch`. -/
def translateBatch (apis : ProviderMap) (config : Option UserConfig)
    (cache : TranslationCache) (times : Nat → Nat) (words : List Word)
    (targetLanguage : Option String) :
    List Translation × TranslationCache × List TranslationEvent :=
  translateBatchAux apis config targetLanguage times 0 cache words

/-- Specification-side view of `translateBatch` for claim C9, following the
spec's words: the words are processed strictly serially in input order (a
later word's call starts from the state the prior word's settled call left
behind); this list records, per input word, the settled outcome of its
`translateWord` call and the events that call fired. -/
def serialOutcomes (apis : ProviderMap) (config : Option UserConfig)
    (targetLanguage : Option String) (times : Nat → Nat) :
    Nat → TranslationCache → List Word →
    List (Except String Translation × List TranslationEvent)
  | _, _, [] => []
  | i, cache, w :: ws =>
    let r := translateWord apis config cache (times i) w targetLanguage none
    (r.result, r.events) ::
      serialOutcomes apis config targetLanguage times (i + 1) r.cache ws

/-! ### Notion record entity (`src/entities/notion-record/model.ts`) -/

/-- `NotionRecordStatus` enum. -/
inductive NotionRecordStatus
  | pending
  | syncing
  | synced
  | failed
deriving DecidableEq, Repr

/-- The `NotionRecord` entity. -/
structure NotionRecord where
  id : String
  word : Word
  translation : Translation
  status : NotionRecordStatus
  notionPageId : Option String
  tags : Option (List String)
  notes : Option String
  proficiency : Option Nat
  createdAt : Nat
  lastSyncAt : Option Nat
  syncError : Option String
deriving DecidableEq, Repr

/-- `updateRecordStatus`: copy the record with the new status and a fresh
`lastSyncAt`; `notionPageId` / `syncError` are only overwritten when the
option is JS-truthy (present and non-empty). -/
def updateRecordStatus (now : Nat) (record : NotionRecord)
    (status : NotionRecordStatus) (notionPageId : Option String)
    (syncError : Option String) : NotionRecord :=
  let updated := { record with status := status, lastSyncAt := some now }
  let updated :=
    if jsTruthy notionPageId then { updated with notionPageId := notionPageId }
    else updated
  if jsTruthy syncError then { updated with syncError := syncError }
  else updated

/-- `createNotionRecord`: fresh record in `PENDING` state. The generated id
and the `Date.now()` reading are passed in. -/
def createNotionRecord (id : String) (now : Nat) (word : Word)
    (translation : Translation) (tags : Option (List String))
    (notes : Option String) (proficiency : Option Nat) : NotionRecord :=
  { id := id
    word := word
    translation := translation
    status := NotionRecordStatus.pending
    notionPageId := none
    tags := tags
    notes := notes
    proficiency := proficiency
    createdAt := now
    lastSyncAt := none
    syncError := none }

/-! ### Notion sync queue (`NotionSyncService`,
`src/features/notion-sync/model.ts`) -/

/-- `SyncQueueItem`: a record wrapped with its retry bookkeeping. -/
structure SyncQueueItem where
  record : NotionRecord
  retryCount : Nat
  maxRetries : Nat
deriving DecidableEq, Repr

/-- Events fired to `NotionSyncService` listeners (the `sync_progress`
variant is never emitted by the service). -/
inductive NotionSyncEvent
  | syncStarted (record : NotionRecord)
  | syncCompleted (record : NotionRecord)
  | syncFailed (record : NotionRecord) (error : String)
deriving DecidableEq, Repr

/-- Whether an event is a `sync_failed` event. -/
def isSyncFailed : NotionSyncEvent → Bool
  | NotionSyncEvent.syncFailed _ _ => true
  | _ => false

/-- `addToQueue(record)`: wrap with `retryCount: 0, maxRetries: 3` and push
onto the tail of the queue array. -/
def addToQueue (record : NotionRecord) (queue : List SyncQueueItem) :
    List SyncQueueItem :=
  queue ++ [{ record := record, retryCount := 0, maxRetries := 3 }]

/-- The outcome of one `processSyncItem` call: the item with its mutated
`record` field, the events fired, and the re-thrown error if the create
call rejected. -/
structure ProcessItemResult where
  item : SyncQueueItem
  events : List NotionSyncEvent
  thrown : Option String
deriving Repr

/-- `processSyncItem(item)` (with the client initialised): fire
`sync_started`, set the record to `SYNCING`, then run `client.createPage`;
on success set `SYNCED` with the page id and fire `sync_completed`; on
rejection set `FAILED` with the error message and re-throw. `createResult`
stands for the settled `createPage` promise. -/
def processSyncItem (now : Nat) (createResult : Except String String)
    (item : SyncQueueItem) : ProcessItemResult :=
  let startEvents := [NotionSyncEvent.syncStarted item.record]
  let item1 :=
    { item with record :=
        updateRecordStatus now item.record NotionRecordStatus.syncing none none }
  match createResult with
  | Except.ok pageId =>
    let item2 :=
      { item1 with record :=
          (updateRecordStatus now item1.record NotionRecordStatus.synced
            (some pageId) none) }
    { item := item2
      events := startEvents ++ [NotionSyncEvent.syncCompleted item2.record]
      thrown := none }
  | Except.error e =>
    let item2 :=
      { item1 with record :=
          (updateRecordStatus now item1.record NotionRecordStatus.failed none
            (some e)) }
    { item := item2, events := startEvents, thrown := some e }

/-- One iteration of the `while` loop of `processQueue` applied to the item
just shifted from the head: on success the item leaves the queue; on a
caught error, if `retryCount < maxRetries` the item is re-pushed (onto the
tail, `retryCount` incremented, the record exactly as `processSyncItem`
left it); otherwise the record is marked `FAILED` once more and a single
`sync_failed` event fires, and the item is not re-queued. Returns the
events fired and the re-queued item, if any. -/
def processQueueStep (now : Nat) (createResult : Except String String)
    (item : SyncQueueItem) :
    List NotionSyncEvent × Option SyncQueueItem :=
  let r := processSyncItem now createResult item
  match r.thrown with
  | none => (r.events, none)
  | some e =>
    if r.item.retryCount < r.item.maxRetries then
      (r.events, some { r.item with retryCount := r.item.retryCount + 1 })
    else
      let failedRecord :=
        updateRecordStatus now r.item.record NotionRecordStatus.failed none
          (some e)
      (r.events ++ [NotionSyncEvent.syncFailed failedRecord e], none)

/-- Termination measure of one queue item: strictly decreases when the item
is re-queued with an incremented `retryCount`. -/
def itemBudget (item : SyncQueueItem) : Nat :=
  item.maxRetries + 1 - item.retryCount + 1

/-- Termination measure of the whole queue. -/
def queueMeasure (queue : List SyncQueueItem) : Nat :=
  (queue.map itemBudget).sum

theorem processSyncItem_item_retryCount (now : Nat)
    (createResult : Except String String) (item : SyncQueueItem) :
    (processSyncItem now createResult item).item.retryCount = item.retryCount := by
  cases createResult <;> simp [processSyncItem]

theorem processSyncItem_item_maxRetries (now : Nat)
    (createResult : Except String String) (item : SyncQueueItem) :
    (processSyncItem now createResult item).item.maxRetries = item.maxRetries := by
  cases createResult <;> simp [processSyncItem]

theorem processQueueStep_requeue_budget (now : Nat)
    (createResult : Except String String) (item requeued : SyncQueueItem)
    (evs : List NotionSyncEvent)
    (h : processQueueStep now createResult item = (evs, some requeued)) :
    itemBudget requeued < itemBudget item := by
  cases createResult with
  | ok pageId =>
    simp [processQueueStep, processSyncItem] at h
  | error e =>
    simp only [processQueueStep, processSyncItem] at h
    split at h
    case isTrue hlt =>
      have hr : requeued.retryCount = item.retryCount + 1 ∧
          requeued.maxRetries = item.maxRetries := by
        have := (Prod.mk.injEq _ _ _ _ ▸ h)
        cases h
        exact ⟨rfl, rfl⟩
      have hlt' : item.retryCount < item.maxRetries := by
        simpa using hlt
      simp only [itemBudget, hr.1, hr.2]
      omega
    case isFalse hge =>
      simp at h

theorem queueMeasure_cons (item : SyncQueueItem) (rest : List SyncQueueItem) :
    queueMeasure (item :: rest) = itemBudget item + queueMeasure rest := by
  simp [queueMeasure]

theorem queueMeasure_append (q₁ q₂ : List SyncQueueItem) :
    queueMeasure (q₁ ++ q₂) = queueMeasure q₁ + queueMeasure q₂ := by
  simp [queueMeasure]

theorem itemBudget_pos (item : SyncQueueItem) : 1 ≤ itemBudget item := by
  simp only [itemBudget]
  omega

/-- The `while (this.syncQueue.length > 0)` drain loop of `processQueue`.
One `createPage` call is made per iteration; `outcomes n` is the settled
result of the `n`-th create call (counting from `calls`). Returns the
events fired, in order, and the total number of create calls made. -/
def processQueue (now : Nat) (outcomes : Nat → Except String String)
    (calls : Nat) (queue : List SyncQueueItem) :
    List NotionSyncEvent × Nat :=
  match queue with
  | [] => ([], calls)
  | item :: rest =>
    match h : processQueueStep now (outcomes calls) item with
    | (evs, none) =>
      let r := processQueue now outcomes (calls + 1) rest
      (evs ++ r.1, r.2)
    | (evs, some requeued) =>
      let r := processQueue now outcomes (calls + 1) (rest ++ [requeued])
      (evs ++ r.1, r.2)
termination_by queueMeasure queue
decreasing_by
  · simp only [queueMeasure_cons]
    have := itemBudget_pos item
    omega
  · have hb := processQueueStep_requeue_budget now (outcomes calls) item requeued
      evs h
    simp only [queueMeasure_cons, queueMeasure_append, queueMeasure,
      List.map_append, List.sum_append, List.map_cons, List.map_nil,
      List.sum_cons, List.sum_nil]
    omega

/-! ### Association-list (JS `Map`) lemmas -/

/-- A JS `Map` never holds two entries with the same key; all reachable
cache states satisfy this. -/
def NodupKeys {α β : Type} (c : List (α × β)) : Prop :=
  (c.map Prod.fst).Nodup

theorem mapGet_mapSet_self {α β : Type} [DecidableEq α] (k : α) (v : β)
    (c : List (α × β)) : mapGet k (mapSet k v c) = some v := by
  induction c with
  | nil => simp [mapSet, mapGet]
  | cons hd tl ih =>
    by_cases hk : hd.1 = k
    · simp [mapSet, mapGet, hk]
    · simpa [mapSet, mapGet, hk] using ih

theorem mapGet_mapSet_ne {α β : Type} [DecidableEq α] (k k' : α) (v : β)
    (c : List (α × β)) (hne : k' ≠ k) :
    mapGet k' (mapSet k v c) = mapGet k' c := by
  have hne' : k ≠ k' := Ne.symm hne
  induction c with
  | nil => simp [mapSet, mapGet, hne']
  | cons hd tl ih =>
    by_cases hk : hd.1 = k
    · subst hk
      simp [mapSet, mapGet, hne']
    · simp only [mapSet, if_neg hk]
      by_cases hk' : hd.1 = k'
      · simp [mapGet, hk']
      · simpa [mapGet, hk'] using ih

theorem mapGet_eq_none_iff {α β : Type} [DecidableEq α] (k : α)
    (c : List (α × β)) : mapGet k c = none ↔ k ∉ c.map Prod.fst := by
  induction c with
  | nil => simp [mapGet]
  | cons hd tl ih =>
    by_cases hk : hd.1 = k
    · simp [mapGet, hk]
    · have hk' : ¬k = hd.1 := fun h => hk h.symm
      simp [mapGet, hk, ih, hk']

theorem mapDelete_of_notMem {α β : Type} [DecidableEq α] (k : α)
    (c : List (α × β)) (h : k ∉ c.map Prod.fst) : mapDelete k c = c := by
  induction c with
  | nil => rfl
  | cons hd tl ih =>
    simp only [List.map_cons, List.mem_cons] at h
    push_neg at h
    have hk : ¬hd.1 = k := fun hh => h.1 hh.symm
    simp [mapDelete, hk, ih h.2]

theorem length_mapDelete_le {α β : Type} [DecidableEq α] (k : α)
    (c : List (α × β)) : (mapDelete k c).length ≤ c.length := by
  induction c with
  | nil => simp [mapDelete]
  | cons hd tl ih =>
    by_cases hk : hd.1 = k
    · simp only [mapDelete, if_pos hk, List.length_cons]
      omega
    · simp only [mapDelete, if_neg hk, List.length_cons]
      omega

theorem length_mapDelete_of_mem {α β : Type} [DecidableEq α] (k : α)
    (c : List (α × β)) (h : k ∈ c.map Prod.fst) :
    (mapDelete k c).length + 1 = c.length := by
  induction c with
  | nil => simp at h
  | cons hd tl ih =>
    by_cases hk : hd.1 = k
    · simp [mapDelete, hk]
    · simp only [List.map_cons, List.mem_cons] at h
      rcases h with h | h

      · exact absurd h.symm hk
      · simp [mapDelete, hk, ih h]

theorem mem_mapDelete_iff {α β : Type} [DecidableEq α] (k : α)
    (c : List (α × β)) (hnd : NodupKeys c) (p : α × β) :
    p ∈ mapDelete k c ↔ p ∈ c ∧ p.1 ≠ k := by
  induction c with
  | nil => simp [mapDelete]
  | cons hd tl ih =>
    have hnd' : NodupKeys tl := by
      simpa [NodupKeys] using (List.nodup_cons.mp hnd).2
    have hhd : hd.1 ∉ tl.map Prod.fst := by
      simpa [NodupKeys] using (List.nodup_cons.mp hnd).1
    by_cases hk : hd.1 = k
    · subst hk
      simp only [mapDelete, if_pos rfl]
      constructor
      · intro hp
        refine ⟨List.mem_cons_of_mem _ hp, ?_⟩
        intro hpk
        exact hhd (hpk ▸ List.mem_map_of_mem Prod.fst hp)
      · rintro ⟨hp, hpk⟩
        rcases List.mem_cons.mp hp with rfl | hp
        · exact absurd rfl hpk
        · exact hp
    · simp only [mapDelete, if_neg hk, List.mem_cons, ih hnd']
      constructor
      · rintro (rfl | ⟨hp, hpk⟩)
        · exact ⟨Or.inl rfl, hk⟩
        · exact ⟨Or.inr hp, hpk⟩
      · rintro ⟨rfl | hp, hpk⟩
        · exact Or.inl rfl
        · exact Or.inr ⟨hp, hpk⟩

theorem NodupKeys_mapDelete {α β : Type} [DecidableEq α] (k : α)
    (c : List (α × β)) (hnd : NodupKeys c) : NodupKeys (mapDelete k c) := by
  induction c with
  | nil => simpa [mapDelete] using hnd
  | cons hd tl ih =>
    have hnd' : NodupKeys tl := by
      simpa [NodupKeys] using (List.nodup_cons.mp hnd).2
    have hhd : hd.1 ∉ tl.map Prod.fst := by
      simpa [NodupKeys] using (List.nodup_cons.mp hnd).1
    by_cases hk : hd.1 = k
    · simpa [mapDelete, hk] using hnd'
    · have htl := ih hnd'
      simp only [mapDelete, if_neg hk, NodupKeys, List.map_cons,
        List.nodup_cons]
      refine ⟨?_, htl⟩
      intro hmem
      rcases List.mem_map.mp hmem with ⟨p, hp, hpk⟩
      have hpc : p ∈ tl := ((mem_mapDelete_iff k tl hnd' p).mp hp).1
      exact hhd (hpk ▸ List.mem_map_of_mem Prod.fst hpc)

theorem length_foldl_mapDelete_le {α β : Type} [DecidableEq α]
    (ks : List α) (c : List (α × β)) :
    (ks.foldl (fun c k => mapDelete k c) c).length ≤ c.length := by
  induction ks generalizing c with
  | nil => simp
  | cons k ks ih =>
    calc (List.foldl (fun c k => mapDelete k c) (mapDelete k c) ks).length
        ≤ (mapDelete k c).length := ih (mapDelete k c)
      _ ≤ c.length := length_mapDelete_le k c

/-! ### Concrete sample data (used by witnesses and counterexamples) -/

/-- A concrete source page. -/
def sampleSource : WordSource :=
  { url := "https://example.com/article"
    title := "Example"
    domain := "example.com" }

/-- A concrete selected word. -/
def sampleWord : Word :=
  { text := "hello"
    language := "en"
    position := none
    context := none
    source := sampleSource
    timestamp := 0 }

/-- A concrete translation result. -/
def sampleResult : TranslationResult :=
  { text := "你好"
    targetLanguage := "zh-CN"
    phonetic := none
    definitions := none
    examples := none }

/-- A concrete translation. -/
def sampleTranslation : Translation :=
  { originalWord := sampleWord
    result := sampleResult
    provider := TranslationProvider.google
    confidence := none
    timestamp := 0
    id := "trans_1" }

/-- A concrete Notion record in `PENDING` state, as `createNotionRecord`
builds it. -/
def sampleRecord : NotionRecord :=
  createNotionRecord "notion_1" 0 sampleWord sampleTranslation none none none

/-- A provider API whose calls always reject. -/
def failApi : ProviderAPI :=
  { translateText := fun _ _ => Except.error "rate limited"
    detectLanguage := fun _ => Except.error "rate limited" }

/-- A provider API whose calls always resolve. -/
def okApi : ProviderAPI :=
  { translateText := fun _ _ => Except.ok sampleTranslation
    detectLanguage := fun _ => Except.ok "en" }

/-- A concrete cache item built from `sampleTranslation`. -/
def sampleItem : TranslationCacheItem :=
  { translation := sampleTranslation, timestamp := 0, accessCount := 1 }

/-! ### Further cache lemmas -/

theorem mapGet_mapDelete_self {α β : Type} [DecidableEq α] (k : α)
    (c : List (α × β)) (hnd : NodupKeys c) :
    mapGet k (mapDelete k c) = none := by
  rw [mapGet_eq_none_iff]
  intro hmem
  rcases List.mem_map.mp hmem with ⟨p, hp, hpk⟩
  exact ((mem_mapDelete_iff k c hnd p).mp hp).2 hpk

/-! ## Claim C6: cache key normalization -/

/-- Counterexample to claim C6 as stated: the claimed key shape
`lowercase(sourceText) + "|" + sourceLanguage + "|" + targetLanguage` keeps
the language codes' case, but `getCacheKey` lowercases the whole composite,
so for text "Hello", source "EN", target "zh-CN" the two differ. -/
theorem getCacheKey_claim_counterexample :
    getCacheKey "Hello" "EN" "zh-CN"
      ≠ jsToLowerCase "Hello" ++ "|" ++ "EN" ++ "|" ++ "zh-CN" := by
  decide

/-- Claim C6 (amended): the cache key is the lowercasing of the WHOLE
composite `sourceText + "|" + sourceLanguage + "|" + targetLanguage`
(language codes included); in particular "Hello" and "hello" with the same
source and target languages resolve to the same key, hence to the same
cache entry. -/
theorem getCacheKey_whole_composite_lowercased :
    (∀ text sourceLanguage targetLanguage : String,
        getCacheKey text sourceLanguage targetLanguage
          = jsToLowerCase
              (text ++ "|" ++ sourceLanguage ++ "|" ++ targetLanguage))
    ∧ (∀ sourceLanguage targetLanguage : String,
        getCacheKey "Hello" sourceLanguage targetLanguage
          = getCacheKey "hello" sourceLanguage targetLanguage) := by
  constructor
  · intro text src tgt
    rfl
  · intro src tgt
    have h : List.map Char.toLower "Hello".data
        = List.map Char.toLower "hello".data := by decide
    simp only [getCacheKey, jsToLowerCase, String.data_append, List.map_append,
      h]

/-! ## Claim C8: detectLanguage sentinel -/

/-- Counterexample to claim C8 as stated: with no registered provider the
registry's `detectLanguage` returns the sentinel `"auto"`, not the claimed
`"unknown"`. -/
theorem detectLanguage_unknown_counterexample :
    detectLanguage [] "hello" = "auto"
      ∧ detectLanguage [] "hello" ≠ "unknown" := by
  exact ⟨rfl, by decide⟩

/-- Claim C8 (amended): when every registered provider's `detectLanguage`
fails (in particular when none is registered), the registry's
`detectLanguage` returns the sentinel `"auto"` language code rather than
failing the caller; and in general it never propagates a provider error:
its result is always either some provider's successful detection or the
`"auto"` sentinel. -/
theorem detectLanguage_sentinel_auto :
    (∀ (apis : ProviderMap) (text : String),
        (∀ pa ∈ apis, ∃ e, pa.2.detectLanguage text = Except.error e) →
        detectLanguage apis text = "auto")
    ∧ (∀ (apis : ProviderMap) (text : String),
        detectLanguage apis text = "auto"
          ∨ ∃ p api, (p, api) ∈ apis
              ∧ api.detectLanguage text = Except.ok (detectLanguage apis text)) := by
  constructor
  · intro apis text h
    induction apis with
    | nil => rfl
    | cons pa rest ih =>
      obtain ⟨p, api⟩ := pa
      obtain ⟨e, he⟩ := h (p, api) (List.mem_cons_self _ _)
      have he' : api.detectLanguage text = Except.error e := he
      simp only [detectLanguage, he']
      exact ih fun pa hpa => h pa (List.mem_cons_of_mem _ hpa)
  · intro apis text
    induction apis with
    | nil => exact Or.inl rfl
    | cons pa rest ih =>
      obtain ⟨p, api⟩ := pa
      cases hd : api.detectLanguage text with
      | ok lang =>
        refine Or.inr ⟨p, api, List.mem_cons_self _ _, ?_⟩
        simp only [detectLanguage, hd]
      | error e =>
        have hrw : detectLanguage ((p, api) :: rest) text
            = detectLanguage rest text := by
          simp only [detectLanguage, hd]
        rcases ih with hauto | ⟨q, qapi, hq, hqok⟩
        · exact Or.inl (hrw ▸ hauto)
        · exact Or.inr ⟨q, qapi, List.mem_cons_of_mem _ hq, hrw ▸ hqok⟩

/-- Witness for C8: a concrete registry whose single provider always fails
detects to the `"auto"` sentinel. -/
theorem detectLanguage_sentinel_auto_witness :
    detectLanguage [(TranslationProvider.google, failApi)] "bonjour" = "auto" :=
  detectLanguage_sentinel_auto.1 [(TranslationProvider.google, failApi)]
    "bonjour"
    (by
      intro pa hpa
      rw [List.mem_singleton] at hpa
      subst hpa
      exact ⟨"rate limited", rfl⟩)

/-! ## Claim C3: provider fallback routing -/

/-- First-success characterisation of the fallback loop: the attempted
providers are exactly the maximal all-failing prefix of the registry plus
the first succeeding provider (if any), in registration order; the result
is the first success, or the aggregated error when all fail. -/
theorem tryProvidersTrace_firstSuccess (word : Word) (targetLanguage : String)
    (apis : ProviderMap) :
    (tryProvidersTrace word targetLanguage apis).2
      = (apis.takeWhile (attemptFails word targetLanguage)).map Prod.fst
        ++ (((apis.dropWhile (attemptFails word targetLanguage)).head?).map
            Prod.fst).toList
    ∧ (tryProvidersTrace word targetLanguage apis).1
      = ((apis.dropWhile (attemptFails word targetLanguage)).head?).elim
          (Except.error "所有翻译API都不可用")
          (fun pa => pa.2.translateText word targetLanguage) := by
  induction apis with
  | nil => exact ⟨rfl, rfl⟩
  | cons pa rest ih =>
    obtain ⟨p, api⟩ := pa
    cases ht : api.translateText word targetLanguage with
    | ok t =>
      have hf : attemptFails word targetLanguage (p, api) = false := by
        simp [attemptFails, ht]
      constructor
      · simp [tryProvidersTrace, ht, hf, List.takeWhile_cons,
          List.dropWhile_cons]
      · simp [tryProvidersTrace, ht, hf, List.dropWhile_cons]
    | error e =>
      have hf : attemptFails word targetLanguage (p, api) = true := by
        simp [attemptFails, ht]
      constructor
      · simp only [tryProvidersTrace, ht, List.takeWhile_cons, hf,
          List.dropWhile_cons, if_true, List.map_cons, List.cons_append]
        exact congrArg _ ih.1
      · simp only [tryProvidersTrace, ht, List.dropWhile_cons, hf, if_true]
        exact ih.2

/-- Counterexample to claim C3 as stated: with a single registered,
always-failing provider given as the preferred provider, that provider is
attempted twice within one `translateText` call (once as the preferred
attempt, once again by the fallback loop, which iterates over the whole
registry and does not skip the preferred provider). -/
theorem translateText_double_attempt_counterexample :
    (translateTextTrace [(TranslationProvider.google, failApi)] sampleWord
        "zh-CN" (some TranslationProvider.google)).2
      = [TranslationProvider.google, TranslationProvider.google]
    ∧ ¬((translateTextTrace [(TranslationProvider.google, failApi)] sampleWord
          "zh-CN" (some TranslationProvider.google)).2.count
            TranslationProvider.google ≤ 1) := by
  exact ⟨rfl, by decide⟩

/-- Claim C3 (amended): when the preferred provider is registered but its
attempt fails, the registry then runs its fallback loop over EVERY
registered provider in registration order — including the preferred
provider itself, which is therefore attempted a second time when the loop
reaches it; within the loop the first success wins, and if all loop
attempts fail the aggregated error is thrown. -/
theorem translateText_preferred_then_full_fallback (apis : ProviderMap)
    (word : Word) (targetLanguage : String) (p : TranslationProvider)
    (api : ProviderAPI) (e : String) (hreg : mapGet p apis = some api)
    (hfail : api.translateText word targetLanguage = Except.error e) :
    translateTextTrace apis word targetLanguage (some p)
      = ((tryProvidersTrace word targetLanguage apis).1,
          p :: (tryProvidersTrace word targetLanguage apis).2)
    ∧ (tryProvidersTrace word targetLanguage apis).2
        = (apis.takeWhile (attemptFails word targetLanguage)).map Prod.fst
          ++ (((apis.dropWhile (attemptFails word targetLanguage)).head?).map
              Prod.fst).toList
    ∧ (tryProvidersTrace word targetLanguage apis).1
        = ((apis.dropWhile (attemptFails word targetLanguage)).head?).elim
            (Except.error "所有翻译API都不可用")
            (fun pa => pa.2.translateText word targetLanguage) := by
  refine ⟨?_, (tryProvidersTrace_firstSuccess word targetLanguage apis).1,
    (tryProvidersTrace_firstSuccess word targetLanguage apis).2⟩
  simp only [translateTextTrace, hreg, hfail]

/-- Witness for C3 (amended), at a registry holding one always-failing
provider preferred by the call. -/
theorem translateText_preferred_then_full_fallback_witness :
    translateTextTrace [(TranslationProvider.google, failApi)] sampleWord
        "zh-CN" (some TranslationProvider.google)
      = ((tryProvidersTrace sampleWord "zh-CN"
            [(TranslationProvider.google, failApi)]).1,
          TranslationProvider.google ::
            (tryProvidersTrace sampleWord "zh-CN"
              [(TranslationProvider.google, failApi)]).2)
    ∧ (tryProvidersTrace sampleWord "zh-CN"
          [(TranslationProvider.google, failApi)]).2
        = (List.takeWhile (attemptFails sampleWord "zh-CN")
              [(TranslationProvider.google, failApi)]).map Prod.fst
          ++ (((List.dropWhile (attemptFails sampleWord "zh-CN")
                [(TranslationProvider.google, failApi)]).head?).map
              Prod.fst).toList
    ∧ (tryProvidersTrace sampleWord "zh-CN"
          [(TranslationProvider.google, failApi)]).1
        = ((List.dropWhile (attemptFails sampleWord "zh-CN")
              [(TranslationProvider.google, failApi)]).head?).elim
            (Except.error "所有翻译API都不可用")
            (fun pa => pa.2.translateText sampleWord "zh-CN") :=
  translateText_preferred_then_full_fallback
    [(TranslationProvider.google, failApi)] sampleWord "zh-CN"
    TranslationProvider.google failApi "rate limited" rfl rfl

/-! ## Claim C7: lazy expiry on lookup -/

/-- Claim C7: a `get` on an entry whose age exceeds `cacheExpiryTime`
returns absent and deletes the entry as a side effect; the key is gone from
the resulting cache, so any subsequent `get` (at any time) also returns
absent and leaves the cache unchanged. Expiry happens only at lookup: the
cache state is a value only ever transformed by the service's calls, there
is no background sweep in the model or the code. -/
theorem getFromCache_lazy_expiry (now later : Nat) (key : String)
    (cache : TranslationCache) (item : TranslationCacheItem)
    (hnd : NodupKeys cache) (hfound : mapGet key cache = some item)
    (hexp : (now : Int) - (item.timestamp : Int) > (cacheExpiryTime : Int)) :
    (getFromCache now key cache).1 = none
    ∧ (getFromCache now key cache).2 = mapDelete key cache
    ∧ mapGet key (getFromCache now key cache).2 = none
    ∧ (getFromCache later key (getFromCache now key cache).2).1 = none
    ∧ (getFromCache later key (getFromCache now key cache).2).2
        = (getFromCache now key cache).2 := by
  have h1 : getFromCache now key cache = (none, mapDelete key cache) := by
    simp only [getFromCache, hfound, if_pos hexp]
  have h2 : mapGet key (mapDelete key cache) = none :=
    mapGet_mapDelete_self key cache hnd
  refine ⟨by rw [h1], by rw [h1], by rw [h1]; exact h2, ?_, ?_⟩
  · rw [h1]
    simp only [getFromCache, h2]
  · rw [h1]
    simp only [getFromCache, h2]

/-- Witness for C7: a concrete one-entry cache looked up just after the
24-hour expiry window. -/
theorem getFromCache_lazy_expiry_witness :
    (getFromCache 86400001 "k" [("k", sampleItem)]).1 = none
    ∧ (getFromCache 86400001 "k" [("k", sampleItem)]).2
        = mapDelete "k" [("k", sampleItem)]
    ∧ mapGet "k" (getFromCache 86400001 "k" [("k", sampleItem)]).2 = none
    ∧ (getFromCache 86400002 "k"
        (getFromCache 86400001 "k" [("k", sampleItem)]).2).1 = none
    ∧ (getFromCache 86400002 "k"
          (getFromCache 86400001 "k" [("k", sampleItem)]).2).2
        = (getFromCache 86400001 "k" [("k", sampleItem)]).2 :=
  getFromCache_lazy_expiry 86400001 86400002 "k" [("k", sampleItem)]
    sampleItem (by simp [NodupKeys]) rfl (by decide)

/-! ## Claim C10: cache hits mutate only the access counter -/

/-- Claim C10: a cache hit (entry present and not expired) only bumps the
entry's `accessCount`: the stored translation and the creation timestamp
are unchanged, every other key's binding is untouched, and the entry still
expires exactly when a lookup time exceeds `cacheExpiryTime` past its
ORIGINAL insertion timestamp — hits do not slide the TTL. -/
theorem getFromCache_hit_frame (now : Nat) (key : String)
    (cache : TranslationCache) (item : TranslationCacheItem)
    (hfound : mapGet key cache = some item)
    (hfresh : ¬((now : Int) - (item.timestamp : Int) > (cacheExpiryTime : Int))) :
    (getFromCache now key cache).1 = some item.translation
    ∧ (getFromCache now key cache).2
        = mapSet key { item with accessCount := item.accessCount + 1 } cache
    ∧ (mapGet key (getFromCache now key cache).2).map
        TranslationCacheItem.translation = some item.translation
    ∧ (mapGet key (getFromCache now key cache).2).map
        TranslationCacheItem.timestamp = some item.timestamp
    ∧ (mapGet key (getFromCache now key cache).2).map
        TranslationCacheItem.accessCount = some (item.accessCount + 1)
    ∧ (∀ k', k' ≠ key →
        mapGet k' (getFromCache now key cache).2 = mapGet k' cache)
    ∧ (∀ later : Nat,
        (later : Int) - (item.timestamp : Int) > (cacheExpiryTime : Int) →
        (getFromCache later key (getFromCache now key cache).2).1 = none) := by
  have h1 : getFromCache now key cache
      = (some item.translation,
          mapSet key { item with accessCount := item.accessCount + 1 } cache) := by
    simp only [getFromCache, hfound, if_neg hfresh]
  have hget : mapGet key (getFromCache now key cache).2
      = some { item with accessCount := item.accessCount + 1 } := by
    rw [h1]
    exact mapGet_mapSet_self key _ cache
  refine ⟨by rw [h1], by rw [h1], by rw [hget]; rfl, by rw [hget]; rfl,
    by rw [hget]; rfl, ?_, ?_⟩
  · intro k' hk'
    rw [h1]
    exact mapGet_mapSet_ne key k' _ cache hk'
  · intro later hlater
    generalize hc2 : (getFromCache now key cache).2 = c2 at hget
    simp only [getFromCache, hget]
    simp [hlater]

/-- Witness for C10: a concrete one-entry cache hit well inside the expiry
window, then an expired lookup after it. -/
theorem getFromCache_hit_frame_witness :
    (getFromCache 5 "k" [("k", sampleItem)]).1 = some sampleItem.translation
    ∧ (getFromCache 5 "k" [("k", sampleItem)]).2
        = mapSet "k"
            { sampleItem with accessCount := sampleItem.accessCount + 1 }
            [("k", sampleItem)]
    ∧ (mapGet "k" (getFromCache 5 "k" [("k", sampleItem)]).2).map
        TranslationCacheItem.translation = some sampleItem.translation
    ∧ (mapGet "k" (getFromCache 5 "k" [("k", sampleItem)]).2).map
        TranslationCacheItem.timestamp = some sampleItem.timestamp
    ∧ (mapGet "k" (getFromCache 5 "k" [("k", sampleItem)]).2).map
        TranslationCacheItem.accessCount = some (sampleItem.accessCount + 1)
    ∧ (∀ k', k' ≠ "k" →
        mapGet k' (getFromCache 5 "k" [("k", sampleItem)]).2
          = mapGet k' [("k", sampleItem)])
    ∧ (∀ later : Nat,
        (later : Int) - (sampleItem.timestamp : Int) > (cacheExpiryTime : Int) →
        (getFromCache later "k" (getFromCache 5 "k" [("k", sampleItem)]).2).1
          = none) :=
  getFromCache_hit_frame 5 "k" [("k", sampleItem)] sampleItem rfl (by decide)

/-! ## Claim C9: batch translation is serial with partial success -/

/-- Claim C9: `translateBatch` processes the words serially in input order —
the `i`-th word's call starts from the cache state the `(i-1)`-th settled
call left behind, which is exactly what `serialOutcomes` records, one
settled outcome per input word — and returns exactly the translations of
the words whose calls succeeded, in input order; failures are swallowed
(the events of a failed word still fire, nothing is re-thrown), and the
events fired are the per-word events concatenated in input order. -/
theorem translateBatch_serial_partial_success (apis : ProviderMap)
    (config : Option UserConfig) (cache : TranslationCache)
    (times : Nat → Nat) (words : List Word) (targetLanguage : Option String) :
    (translateBatch apis config cache times words targetLanguage).1
      = (serialOutcomes apis config targetLanguage times 0 cache words).filterMap
          (fun r => r.1.toOption)
    ∧ (translateBatch apis config cache times words targetLanguage).2.2
      = ((serialOutcomes apis config targetLanguage times 0 cache words).map
          (fun r => r.2)).flatten
    ∧ (serialOutcomes apis config targetLanguage times 0 cache words).length
      = words.length := by
  suffices h : ∀ (i : Nat) (c : TranslationCache) (ws : List Word),
      (translateBatchAux apis config targetLanguage times i c ws).1
        = (serialOutcomes apis config targetLanguage times i c ws).filterMap
            (fun r => r.1.toOption)
      ∧ (translateBatchAux apis config targetLanguage times i c ws).2.2
        = ((serialOutcomes apis config targetLanguage times i c ws).map
            (fun r => r.2)).flatten
      ∧ (serialOutcomes apis config targetLanguage times i c ws).length
        = ws.length by
    exact h 0 cache words
  intro i c ws
  induction ws generalizing i c with
  | nil => exact ⟨rfl, rfl, rfl⟩
  | cons w ws ih =>
    obtain ⟨ih1, ih2, ih3⟩ := ih (i + 1)
      (translateWord apis config c (times i) w targetLanguage none).cache
    cases hr : (translateWord apis config c (times i) w targetLanguage
        none).result with
    | ok t =>
      refine ⟨?_, ?_, ?_⟩
      · simp only [translateBatchAux, serialOutcomes, hr, List.filterMap_cons,
          Except.toOption, ih1]
      · simp only [translateBatchAux, serialOutcomes, hr, List.map_cons,
          List.flatten_cons, ih2]
      · simp only [serialOutcomes, List.length_cons, ih3]
    | error e =>
      refine ⟨?_, ?_, ?_⟩
      · simp only [translateBatchAux, serialOutcomes, hr, List.filterMap_cons,
          Except.toOption, ih1]
      · simp only [translateBatchAux, serialOutcomes, hr, List.map_cons,
          List.flatten_cons, ih2]
      · simp only [serialOutcomes, List.length_cons, ih3]

/-! ## Claims C1 and C2: sync queue retry exhaustion -/

/-- The records carried by the `sync_failed` events of an event trace. -/
def syncFailedRecords : List NotionSyncEvent → List NotionRecord :=
  List.filterMap fun ev => match ev with
    | NotionSyncEvent.syncFailed r _ => some r
    | _ => none

/-- Counterexample to claim C1 as stated: enqueue one record whose create
call always rejects (`maxRetries = 3`); the drain loop makes 4 create
attempts, not the claimed 3 — the initial attempt plus one retry per unit
of retry budget, because the `retryCount < maxRetries` check runs after
the failed attempt on the pre-increment counter. -/
theorem sync_exhaustion_attempts_counterexample :
    (processQueue 0 (fun _ => Except.error "network error") 0
        (addToQueue sampleRecord [])).2 = 4
    ∧ (processQueue 0 (fun _ => Except.error "network error") 0
        (addToQueue sampleRecord [])).2 ≠ 3 := by
  constructor
  · simp [processQueue, processQueueStep, processSyncItem, addToQueue,
      updateRecordStatus, jsTruthy]
  · simp [processQueue, processQueueStep, processSyncItem, addToQueue,
      updateRecordStatus, jsTruthy]

/-- Claim C1 (amended): for every record enqueued into the sync queue whose
external create call always fails, with `maxRetries = 3`, the drain loop
makes exactly 4 create attempts (the initial attempt plus 3 retries); the
record ends in `Failed` status, and a `sync_failed` event fires exactly
once for it, carrying that `Failed` record. -/
theorem sync_exhaustion_four_attempts_one_failure (now : Nat)
    (msgs : Nat → String) (record : NotionRecord) :
    (processQueue now (fun n => Except.error (msgs n)) 0
        (addToQueue record [])).2 = 4
    ∧ (syncFailedRecords
          (processQueue now (fun n => Except.error (msgs n)) 0
            (addToQueue record [])).1).map NotionRecord.status
        = [NotionRecordStatus.failed]
    ∧ ((processQueue now (fun n => Except.error (msgs n)) 0
          (addToQueue record [])).1.filter isSyncFailed).length = 1 := by
  refine ⟨?_, ?_, ?_⟩ <;>
    simp [processQueue, processQueueStep, processSyncItem, addToQueue,
      updateRecordStatus, jsTruthy, isSyncFailed, syncFailedRecords,
      apply_ite NotionRecord.status]

/-- Counterexample to claim C2 as stated: a queue item whose create attempt
fails with retry budget remaining (`retryCount = 0 < 3 = maxRetries`) is
re-queued carrying `Failed` status — `processSyncItem`'s catch block marked
the record `FAILED` before re-throwing, and the re-queue path in
`processQueue` only increments `retryCount`, it never resets the status to
`Pending`. -/
theorem sync_requeue_pending_counterexample :
    ((processQueueStep 0 (Except.error "boom")
          { record := sampleRecord, retryCount := 0, maxRetries := 3 }).2.map
        fun it => it.record.status) = some NotionRecordStatus.failed
    ∧ ((processQueueStep 0 (Except.error "boom")
          { record := sampleRecord, retryCount := 0, maxRetries := 3 }).2.map
        fun it => it.record.status) ≠ some NotionRecordStatus.pending := by
  constructor
  · rfl
  · decide

/-- Claim C2 (amended): when a sync queue item fails a create attempt while
retry budget remains (`retryCount < maxRetries`), it IS re-queued with its
`retryCount` incremented, but the wrapped record is re-queued carrying
`Failed` status (set by the failed attempt itself), not reset to `Pending`;
no `sync_failed` event is emitted on this path — that event is reserved for
retry-budget exhaustion. -/
theorem sync_requeue_carries_failed_status (now : Nat) (e : String)
    (item : SyncQueueItem) (h : item.retryCount < item.maxRetries) :
    ((processQueueStep now (Except.error e) item).2.map
        fun it => it.record.status) = some NotionRecordStatus.failed
    ∧ ((processQueueStep now (Except.error e) item).2.map
        SyncQueueItem.retryCount) = some (item.retryCount + 1)
    ∧ (processQueueStep now (Except.error e) item).1.filter isSyncFailed
        = [] := by
  refine ⟨?_, ?_, ?_⟩ <;>
    simp [processQueueStep, processSyncItem, updateRecordStatus, jsTruthy,
      isSyncFailed, h, apply_ite NotionRecord.status,
      apply_ite SyncQueueItem.retryCount]

/-- Witness for C2 (amended): a concrete fresh item whose first attempt
fails. -/
theorem sync_requeue_carries_failed_status_witness :
    ((processQueueStep 7 (Except.error "rate limited")
          { record := sampleRecord, retryCount := 0, maxRetries := 3 }).2.map
        fun it => it.record.status) = some NotionRecordStatus.failed
    ∧ ((processQueueStep 7 (Except.error "rate limited")
          { record := sampleRecord, retryCount := 0, maxRetries := 3 }).2.map
        SyncQueueItem.retryCount) = some (0 + 1)
    ∧ (processQueueStep 7 (Except.error "rate limited")
          { record := sampleRecord, retryCount := 0, maxRetries := 3 }).1.filter
        isSyncFailed = [] :=
  sync_requeue_carries_failed_status 7 "rate limited"
    { record := sampleRecord, retryCount := 0, maxRetries := 3 } (by decide)

/-! ## Claims C4 and C5: cache bound and LFU eviction -/

theorem keys_inj_of_NodupKeys {α β : Type} (l : List (α × β))
    (hnd : NodupKeys l) (p q : α × β) (hp : p ∈ l) (hq : q ∈ l)
    (hk : p.1 = q.1) : p = q :=
  List.inj_on_of_nodup_map hnd hp hq hk

theorem mem_keys_mapDelete {α β : Type} [DecidableEq α] (k k' : α)
    (c : List (α × β)) (hnd : NodupKeys c) :
    k' ∈ (mapDelete k c).map Prod.fst ↔ k' ∈ c.map Prod.fst ∧ k' ≠ k := by
  simp only [List.mem_map]
  constructor
  · rintro ⟨p, hp, rfl⟩
    have h := (mem_mapDelete_iff k c hnd p).mp hp
    exact ⟨⟨p, h.1, rfl⟩, h.2⟩
  · rintro ⟨⟨p, hp, rfl⟩, hne⟩
    exact ⟨p, (mem_mapDelete_iff k c hnd p).mpr ⟨hp, hne⟩, rfl⟩

theorem foldl_mapDelete_mem {α β : Type} [DecidableEq α] (ks : List α)
    (c : List (α × β)) (hnd : NodupKeys c) (p : α × β) :
    p ∈ ks.foldl (fun c k => mapDelete k c) c ↔ p ∈ c ∧ p.1 ∉ ks := by
  induction ks generalizing c with
  | nil => simp
  | cons k ks ih =>
    have hnd' := NodupKeys_mapDelete k c hnd
    rw [List.foldl_cons, ih (mapDelete k c) hnd', mem_mapDelete_iff k c hnd p]
    simp only [List.mem_cons]
    constructor
    · rintro ⟨⟨hp, hk⟩, hks⟩
      exact ⟨hp, by push_neg; exact ⟨hk, hks⟩⟩
    · rintro ⟨hp, hnotin⟩
      push_neg at hnotin
      exact ⟨⟨hp, hnotin.1⟩, hnotin.2⟩

theorem length_foldl_mapDelete {α β : Type} [DecidableEq α] (ks : List α)
    (c : List (α × β)) (hnd : NodupKeys c) (hks : ks.Nodup)
    (hmem : ∀ kk ∈ ks, kk ∈ c.map Prod.fst) :
    (ks.foldl (fun c k => mapDelete k c) c).length + ks.length = c.length := by
  induction ks generalizing c with
  | nil => simp
  | cons k ks ih =>
    have hnd' := NodupKeys_mapDelete k c hnd
    have hknotin : k ∉ ks := (List.nodup_cons.mp hks).1
    have hks' : ks.Nodup := (List.nodup_cons.mp hks).2
    have hmem' : ∀ kk ∈ ks, kk ∈ (mapDelete k c).map Prod.fst := by
      intro kk hkk
      exact (mem_keys_mapDelete k kk c hnd).mpr
        ⟨hmem kk (List.mem_cons_of_mem _ hkk),
          fun hkkk => hknotin (hkkk ▸ hkk)⟩
    have hlen := length_mapDelete_of_mem k c (hmem k (List.mem_cons_self _ _))
    have hih := ih (mapDelete k c) hnd' hks' hmem'
    simp only [List.foldl_cons, List.length_cons]
    omega

theorem length_mapSet_le {α β : Type} [DecidableEq α] (k : α) (v : β)
    (c : List (α × β)) : (mapSet k v c).length ≤ c.length + 1 := by
  induction c with
  | nil => simp [mapSet]
  | cons hd tl ih =>
    by_cases hk : hd.1 = k
    · simp [mapSet, hk]
    · simp only [mapSet, if_neg hk, List.length_cons]
      omega

theorem sortedEntries_perm (cache : TranslationCache) :
    List.Perm (sortedEntries cache) cache :=
  List.perm_insertionSort evictOrder cache

theorem sortedEntries_sorted (cache : TranslationCache) :
    List.Sorted evictOrder (sortedEntries cache) :=
  List.sorted_insertionSort evictOrder cache

theorem sortedEntries_length (cache : TranslationCache) :
    (sortedEntries cache).length = cache.length :=
  (sortedEntries_perm cache).length_eq

theorem NodupKeys_sortedEntries (cache : TranslationCache)
    (hnd : NodupKeys cache) : NodupKeys (sortedEntries cache) :=
  (((sortedEntries_perm cache).map Prod.fst).nodup_iff).mpr hnd

theorem evictBatchSize_le (n : Nat) (h : 1 ≤ n) : evictBatchSize n ≤ n := by
  simp only [evictBatchSize]
  omega

theorem evictBatchSize_pos (n : Nat) (h : 1 ≤ n) : 1 ≤ evictBatchSize n := by
  simp only [evictBatchSize]
  omega

theorem evictedKeys_eq (cache : TranslationCache) :
    evictedKeys cache
      = ((sortedEntries cache).take (evictBatchSize cache.length)).map
          Prod.fst := by
  rw [evictedKeys, sortedEntries_length]

theorem evictedKeys_length (cache : TranslationCache)
    (hne : 1 ≤ cache.length) :
    (evictedKeys cache).length = evictBatchSize cache.length := by
  rw [evictedKeys_eq, List.length_map, List.length_take,
    sortedEntries_length]
  exact Nat.min_eq_left (evictBatchSize_le cache.length hne)

theorem evictedKeys_nodup (cache : TranslationCache) (hnd : NodupKeys cache) :
    (evictedKeys cache).Nodup := by
  rw [evictedKeys_eq, List.map_take]
  exact (List.take_sublist _ _).nodup (NodupKeys_sortedEntries cache hnd)

theorem evictedKeys_subkeys (cache : TranslationCache) :
    ∀ kk ∈ evictedKeys cache, kk ∈ cache.map Prod.fst := by
  intro kk hkk
  rw [evictedKeys_eq] at hkk
  rcases List.mem_map.mp hkk with ⟨p, hp, rfl⟩
  exact List.mem_map_of_mem Prod.fst
    ((sortedEntries_perm cache).subset (List.mem_of_mem_take hp))

theorem evictLeastUsedItems_length_lt (cache : TranslationCache)
    (hne : 1 ≤ cache.length) :
    (evictLeastUsedItems cache).length < cache.length := by
  have hk1 : 1 ≤ evictBatchSize cache.length := evictBatchSize_pos _ hne
  have hlen : 1 ≤ (evictedKeys cache).length := by
    rw [evictedKeys_eq, List.length_map, List.length_take,
      sortedEntries_length]
    omega
  have hnil : evictedKeys cache ≠ [] :=
    List.ne_nil_of_length_pos (by omega)
  obtain ⟨k₀, ks, hcons⟩ := List.exists_cons_of_ne_nil hnil
  have hk₀ : k₀ ∈ cache.map Prod.fst :=
    evictedKeys_subkeys cache k₀ (hcons ▸ List.mem_cons_self _ _)
  have hdel := length_mapDelete_of_mem k₀ cache hk₀
  have hrest := length_foldl_mapDelete_le ks (mapDelete k₀ cache)
  rw [evictLeastUsedItems, hcons, List.foldl_cons]
  exact Nat.lt_of_le_of_lt hrest (by omega)

theorem evictLeastUsedItems_length (cache : TranslationCache)
    (hnd : NodupKeys cache) (hne : 1 ≤ cache.length) :
    (evictLeastUsedItems cache).length + evictBatchSize cache.length
      = cache.length := by
  rw [evictLeastUsedItems, ← evictedKeys_length cache hne]
  exact length_foldl_mapDelete (evictedKeys cache) cache hnd
    (evictedKeys_nodup cache hnd) (evictedKeys_subkeys cache)

theorem mem_evictLeastUsedItems (cache : TranslationCache)
    (hnd : NodupKeys cache) (q : String × TranslationCacheItem) :
    q ∈ evictLeastUsedItems cache ↔ q ∈ cache ∧ q.1 ∉ evictedKeys cache := by
  rw [evictLeastUsedItems]
  exact foldl_mapDelete_mem (evictedKeys cache) cache hnd q

theorem evicted_le_kept (cache : TranslationCache) (hnd : NodupKeys cache)
    (p : String × TranslationCacheItem) (hp : p ∈ cache)
    (hpk : p.1 ∈ evictedKeys cache) (q : String × TranslationCacheItem)
    (hq : q ∈ evictLeastUsedItems cache) : evictOrder p q := by
  have hndS : NodupKeys (sortedEntries cache) :=
    NodupKeys_sortedEntries cache hnd
  have hq' := (mem_evictLeastUsedItems cache hnd q).mp hq
  have hpS : p ∈ sortedEntries cache :=
    (sortedEntries_perm cache).mem_iff.mpr hp
  have hqS : q ∈ sortedEntries cache :=
    (sortedEntries_perm cache).mem_iff.mpr hq'.1
  have hpw : List.Pairwise evictOrder
      ((sortedEntries cache).take (evictBatchSize (sortedEntries cache).length)
        ++ (sortedEntries cache).drop
            (evictBatchSize (sortedEntries cache).length)) := by
    rw [List.take_append_drop]
    exact sortedEntries_sorted cache
  obtain ⟨-, -, hcross⟩ := List.pairwise_append.mp hpw
  have hptake : p ∈ (sortedEntries cache).take
      (evictBatchSize (sortedEntries cache).length) := by
    rcases List.mem_map.mp hpk with ⟨r, hr, hrk⟩
    have hrS : r ∈ sortedEntries cache := List.mem_of_mem_take hr
    have : r = p := keys_inj_of_NodupKeys (sortedEntries cache) hndS r p hrS
      hpS hrk
    exact this ▸ hr
  have hqdrop : q ∈ (sortedEntries cache).drop
      (evictBatchSize (sortedEntries cache).length) := by
    have hsplit : q ∈ (sortedEntries cache).take
          (evictBatchSize (sortedEntries cache).length)
        ∨ q ∈ (sortedEntries cache).drop
            (evictBatchSize (sortedEntries cache).length) := by
      rw [← List.mem_append, List.take_append_drop]
      exact hqS
    rcases hsplit with hqt | hqd
    · exact absurd (List.mem_map_of_mem Prod.fst hqt) hq'.2
    · exact hqd
  exact hcross p hptake q hqdrop

/-- Claim C5: a capacity-triggered eviction sweep selects a batch of exactly
`⌈n/10⌉` keys (`Math.ceil(n * 0.1)`, i.e. 10% of the current entry count,
minimum 1 for a non-empty cache), removes exactly that many entries — the
survivors are precisely the entries whose key was not selected — and the
removed entries are least in the eviction ordering: every evicted entry
precedes every kept entry by ascending `accessCount`, ties broken by
ascending creation timestamp. -/
theorem evictLeastUsedItems_lfu (cache : TranslationCache)
    (hnd : NodupKeys cache) (hne : 1 ≤ cache.length) :
    (evictedKeys cache).length = evictBatchSize cache.length
    ∧ 1 ≤ evictBatchSize cache.length
    ∧ (evictLeastUsedItems cache).length + evictBatchSize cache.length
        = cache.length
    ∧ (∀ q, q ∈ evictLeastUsedItems cache
        ↔ q ∈ cache ∧ q.1 ∉ evictedKeys cache)
    ∧ (∀ p ∈ cache, p.1 ∈ evictedKeys cache →
        ∀ q ∈ evictLeastUsedItems cache, evictOrder p q) :=
  ⟨evictedKeys_length cache hne, evictBatchSize_pos _ hne,
    evictLeastUsedItems_length cache hnd hne,
    mem_evictLeastUsedItems cache hnd,
    fun p hp hpk q hq => evicted_le_kept cache hnd p hp hpk q hq⟩

/-- A two-entry cache used to witness C5. -/
def twoEntryCache : TranslationCache :=
  [("a", sampleItem), ("b", { sampleItem with accessCount := 5 })]

/-- Witness for C5 at a concrete two-entry cache with distinct access
counts. -/
theorem evictLeastUsedItems_lfu_witness :
    (evictedKeys twoEntryCache).length = evictBatchSize twoEntryCache.length
    ∧ 1 ≤ evictBatchSize twoEntryCache.length
    ∧ (evictLeastUsedItems twoEntryCache).length
          + evictBatchSize twoEntryCache.length
        = twoEntryCache.length
    ∧ (∀ q, q ∈ evictLeastUsedItems twoEntryCache
        ↔ q ∈ twoEntryCache ∧ q.1 ∉ evictedKeys twoEntryCache)
    ∧ (∀ p ∈ twoEntryCache, p.1 ∈ evictedKeys twoEntryCache →
        ∀ q ∈ evictLeastUsedItems twoEntryCache, evictOrder p q) :=
  evictLeastUsedItems_lfu twoEntryCache
    (by simp [NodupKeys, twoEntryCache]) (by simp [twoEntryCache])

theorem addToCache_length_le (now : Nat) (key : String) (t : Translation)
    (cache : TranslationCache) (h : cache.length ≤ maxCacheSize) :
    (addToCache now key t cache).length ≤ maxCacheSize := by
  have hM : 1 ≤ maxCacheSize := by decide
  by_cases hge : cache.length ≥ maxCacheSize
  · have h1 : 1 ≤ cache.length := by omega
    have h2 := evictLeastUsedItems_length_lt cache h1
    have h3 := length_mapSet_le key
      ({ translation := t, timestamp := now, accessCount := 1 } :
        TranslationCacheItem) (evictLeastUsedItems cache)
    simp only [addToCache, if_pos hge]
    omega
  · have h3 := length_mapSet_le key
      ({ translation := t, timestamp := now, accessCount := 1 } :
        TranslationCacheItem) cache
    simp only [addToCache, if_neg hge]
    omega

theorem applyPuts_length_le (puts : List (Nat × String × Translation))
    (cache : TranslationCache) (h : cache.length ≤ maxCacheSize) :
    (applyPuts puts cache).length ≤ maxCacheSize := by
  induction puts generalizing cache with
  | nil => simpa [applyPuts] using h
  | cons p ps ih =>
    simp only [applyPuts, List.foldl_cons]
    exact ih (addToCache p.1 p.2.1 p.2.2 cache)
      (addToCache_length_le p.1 p.2.1 p.2.2 cache h)

/-- Claim C4: for every sequence of `put` calls starting from the empty
cache, after each call the cache size is at most `maxCacheSize` (1000) —
stated for an arbitrary sequence, hence for every prefix of any sequence —
and whenever a `put` finds `size ≥ maxSize` it runs the eviction sweep,
which removes at least one entry, before inserting the new entry into the
evicted cache. -/
theorem cache_size_bounded :
    (∀ puts : List (Nat × String × Translation),
        (applyPuts puts []).length ≤ maxCacheSize)
    ∧ (∀ (now : Nat) (key : String) (t : Translation)
        (cache : TranslationCache), maxCacheSize ≤ cache.length →
        (evictLeastUsedItems cache).length < cache.length
        ∧ addToCache now key t cache
            = mapSet key
                { translation := t, timestamp := now, accessCount := 1 }
                (evictLeastUsedItems cache)) := by
  constructor
  · intro puts
    exact applyPuts_length_le puts [] (by simp [maxCacheSize])
  · intro now key t cache hge
    have hM : 1 ≤ maxCacheSize := by decide
    refine ⟨evictLeastUsedItems_length_lt cache (by omega), ?_⟩
    simp only [addToCache, ge_iff_le, if_pos hge]

/-- A concrete cache holding exactly `maxCacheSize` entries, used to
witness C4's eviction-before-insert clause. -/
def bigCache : TranslationCache :=
  (List.range 1000).map fun i => (toString i, sampleItem)

/-- Witness for C4: a one-put sequence stays within the bound, and a `put`
on a full 1000-entry cache evicts before inserting. -/
theorem cache_size_bounded_witness :
    (applyPuts [(0, "k", sampleTranslation)] []).length ≤ maxCacheSize
    ∧ ((evictLeastUsedItems bigCache).length < bigCache.length
        ∧ addToCache 0 "k" sampleTranslation bigCache
            = mapSet "k"
                { translation := sampleTranslation, timestamp := 0,
                  accessCount := 1 }
                (evictLeastUsedItems bigCache)) :=
  ⟨cache_size_bounded.1 [(0, "k", sampleTranslation)],
    cache_size_bounded.2 0 "k" sampleTranslation bigCache
      (by simp [bigCache, maxCacheSize])⟩

end NotionsWords
